import Mathlib

/-!
# Verification of the utility modules of `react-2025`

Shallow embedding of the string-transform helpers (`censorUtils.js`,
`stringUtils.js`), the browser-storage wrapper, and the axios request
pipeline (`axiosAPIWrapper.js`).  JavaScript strings are modelled as
`List Char`; dynamically-typed JavaScript values as the inductive `JSVal`;
a thrown exception as the `Except.error` branch of an `Except` result.
-/

/-- `String.data` helper: write string literals, reason over `List Char`. -/
def str (s : String) : List Char := s.data

/-- A JavaScript runtime value, restricted to the primitives the helpers
handle: `null`/`undefined` (collapsed), booleans, non-negative integral
numbers and strings. -/
inductive JSVal where
  | vnull : JSVal
  | vbool : Bool → JSVal
  | vnum  : Nat → JSVal
  | vstr  : List Char → JSVal
deriving DecidableEq, Repr

/-- JavaScript truthiness of a `JSVal` (`if (x)`). -/
def JSVal.truthy : JSVal → Bool
  | .vnull   => false
  | .vbool b => b
  | .vnum n  => n ≠ 0
  | .vstr s  => s ≠ []

/-- `String(x)` / template-literal coercion of a `JSVal`. -/
def JSVal.toStr : JSVal → List Char
  | .vnull   => str "null"
  | .vbool true  => str "true"
  | .vbool false => str "false"
  | .vnum n  => Nat.toDigits 10 n
  | .vstr s  => s

/-- `censorWord` from `censorUtils.js`, on the string (list) level:
`if (str.length === 0) return ''; if (str.length === 1) return '*';
if (str.length === 2) return str[0] + '*';
return str[0] + '*'.repeat(str.length - 2) + str.slice(-1);` -/
def censorWord : List Char → List Char
  | [] => []
  | [_] => ['*']
  | [a, _] => [a, '*']
  | a :: b :: c :: rest =>
      a :: (List.replicate ((b :: c :: rest).length - 1) '*'
        ++ [(b :: c :: rest).getLastD '*'])

/-- `censorWord` including the `typeof str !== 'string'` guard, which sends
every non-string argument to the empty string. -/
def censorWordJS : JSVal → List Char
  | .vstr s => censorWord s
  | _ => []

/-- The `^\+\d+` country-code match of `censorPhone`: a leading `'+'`
followed by the maximal nonempty run of digits, or the empty match. -/
def countryCodeMatch : List Char → List Char
  | '+' :: rest =>
      let ds := rest.takeWhile Char.isDigit
      if ds = [] then [] else '+' :: ds
  | _ => []

/-- `censorPhone` from `censorUtils.js`: coerce to string, strip the
`^\+\d+` match (kept verbatim) and censor the remainder with `censorWord`. -/
def censorPhone (number : JSVal) : List Char :=
  let s := number.toStr
  let countryCode := countryCodeMatch s
  countryCode ++ censorWord (s.drop countryCode.length)

/-- JavaScript `s.split(sep)` for a one-character separator: the list of
chunks between occurrences of `sep`, with empty chunks kept. -/
def jsSplit (sep : Char) : List Char → List (List Char)
  | [] => [[]]
  | c :: rest =>
      if c = sep then [] :: jsSplit sep rest
      else
        match jsSplit sep rest with
        | [] => [[c]]
        | p :: ps => (c :: p) :: ps

/-- JavaScript `parts.join(sep)` for a string separator. -/
def jsJoin (sep : List Char) : List (List Char) → List Char
  | [] => []
  | [p] => p
  | p :: q :: ps => p ++ sep ++ jsJoin sep (q :: ps)

/-- The domain half of `censorEmail`: split on `'.'`, censor the first
label with `censorWord`, keep `parts.slice(1).join('.')` verbatim behind a
dot when it is nonempty. -/
def censorDomain (domain : List Char) : List Char :=
  let domainParts := jsSplit '.' domain
  let domainName := domainParts.headD []
  let tld := jsJoin (str ".") (domainParts.drop 1)
  censorWord domainName ++ (if tld = [] then [] else '.' :: tld)

/-- `censorEmail` from `censorUtils.js`: non-strings and strings without
`'@'` are returned untouched; otherwise `[local, domain] = email.split('@')`
(parts beyond the second are dropped), the local part and the first domain
label are censored, and the remaining domain suffix is kept. -/
def censorEmail : JSVal → JSVal
  | .vstr s =>
      if '@' ∈ s then
        let parts := jsSplit '@' s
        let locl := parts.headD []
        let domain := (parts.drop 1).headD []
        .vstr (censorWord locl ++ '@' :: censorDomain domain)
      else .vstr s
  | v => v

/-- JavaScript `s.trim()`: drop whitespace from both ends. -/
def jsTrim (l : List Char) : List Char :=
  ((l.dropWhile Char.isWhitespace).reverse.dropWhile Char.isWhitespace).reverse

/-- `.replace(/\s+/g, "-")` of `slugify`: each maximal whitespace run
becomes a single dash.  The flag records whether the previous character
was part of a whitespace run. -/
def wsToDash : Bool → List Char → List Char
  | _, [] => []
  | prevWS, c :: rest =>
      if c.isWhitespace then
        (if prevWS then [] else ['-']) ++ wsToDash true rest
      else c :: wsToDash false rest

/-- The character class kept by `.replace(/[^\w-]+/g, "")`: `\w`
(ASCII letter, digit, underscore) or a dash. -/
def keepChar (c : Char) : Bool := c.isAlphanum || c = '_' || c = '-'

/-- The `replace` of `slugify` whose pattern is two-or-more dashes (global):
each maximal dash run becomes a single dash (runs of length one are
already single, so this collapses every run to one dash). -/
def collapseDashes : Bool → List Char → List Char
  | _, [] => []
  | prevDash, c :: rest =>
      if c = '-' then
        (if prevDash then [] else ['-']) ++ collapseDashes true rest
      else c :: collapseDashes false rest

/-- `slugify` from `stringUtils.js`: lowercase, trim, whitespace runs to
dashes, strip characters outside `[\w-]`, collapse dash runs. -/
def slugify (l : List Char) : List Char :=
  collapseDashes false
    (List.filter keepChar (wsToDash false (jsTrim (l.map Char.toLower))))

/-- Absence of adjacent dashes — the shape `slugify`'s final `replace`
guarantees, used to show a second pass changes nothing. -/
def noDDash : List Char → Bool
  | a :: b :: t => (!(a = '-' && b = '-')) && noDDash (b :: t)
  | _ => true

/-- `camelToSnake` from `stringUtils.js`:
`str.replace(/[A-Z]/g, (match) => \x7b_$\x7bmatch.toLowerCase()\x7d\x7d)`. -/
def camelToSnake : List Char → List Char
  | [] => []
  | c :: rest => (if c.isUpper then ['_', c.toLower] else [c]) ++ camelToSnake rest

/-- `snakeToCamel` from `stringUtils.js`:
`str.replace(/_([a-z])/g, (match, p1) => p1.toUpperCase())`, scanning
left-to-right over non-overlapping matches. -/
def snakeToCamel : List Char → List Char
  | [] => []
  | '_' :: c :: rest =>
      if c.isLower then c.toUpper :: snakeToCamel rest
      else '_' :: snakeToCamel (c :: rest)
  | c :: rest => c :: snakeToCamel rest

/-! ## JSON helpers (utility segment of `axiosAPIWrapper.js`) -/

/-- Decimal digit run to a number, for the JSON number model. -/
def digitsToNat (l : List Char) : Nat :=
  l.foldl (fun n c => n * 10 + (c.toNat - 48)) 0

/-- Model of the platform `JSON.parse`, restricted to primitive literals:
`null`, `true`, `false`, canonical non-negative integers, and quoted
strings free of quotes and backslashes.  Every other input — including
the composite values this repository never stores — is modelled as a
parse failure (`none`), exactly as `JSON.parse` throws on inputs such as
`"\x7b"`. -/
def jsonParse (s : List Char) : Option JSVal :=
  let t := jsTrim s
  if t = str "null" then some .vnull
  else if t = str "true" then some (.vbool true)
  else if t = str "false" then some (.vbool false)
  else if t ≠ [] ∧ t.all Char.isDigit ∧ (t.headD '0' ≠ '0' ∨ t.length = 1) then
    some (.vnum (digitsToNat t))
  else if 2 ≤ t.length ∧ t.headD ' ' = '"' ∧ t.getLastD ' ' = '"'
      ∧ ∀ c ∈ (t.drop 1).dropLast, c ≠ '"' ∧ c ≠ '\\' then
    some (.vstr ((t.drop 1).dropLast))
  else none

/-- `isValidJSON(value)`: `JSON.parse` inside `try`/`catch`, `true` iff no
exception was thrown. -/
def isValidJSON (value : List Char) : Bool :=
  (jsonParse value).isSome

/-- `safeParseJSON(value)`: the parsed value, or JavaScript `null` when
`JSON.parse` throws. -/
def safeParseJSON (value : List Char) : JSVal :=
  match jsonParse value with
  | some v => v
  | none => .vnull

/-- `JSON.stringify` on the primitive values of the model. -/
def jsonStringify : JSVal → List Char
  | .vnull => str "null"
  | .vbool true => str "true"
  | .vbool false => str "false"
  | .vnum n => Nat.toDigits 10 n
  | .vstr s => '"' :: s ++ ['"']

/-! ## The browser storage wrapper (storage segment of `censorUtils.js`) -/

/-- The two browser storages, as association lists from (prefixed) keys to
stored string values in insertion order. -/
structure DOMStores where
  durable : List (List Char × List Char)
  session : List (List Char × List Char)
deriving DecidableEq, Repr

/-- Which storage object `getStorage` returned. -/
inductive StorageSide where
  | loc : StorageSide
  | sess : StorageSide
deriving DecidableEq, Repr

def STORAGE_PREFIX : List Char := str "my_app_"

/-- `getStorage(type)`: the storage for `'local'` or `'session'`;
any other tag throws an `Error` (modelled as `Except.error` carrying the
message). -/
def getStorage (ty : List Char) : Except (List Char) StorageSide :=
  if ty = str "local" then .ok .loc
  else if ty = str "session" then .ok .sess
  else .error (str "Invalid storage type provided: " ++ ty
      ++ str ". Use 'local' or 'session'.")

def readSide : StorageSide → DOMStores → List (List Char × List Char)
  | .loc, st => st.durable
  | .sess, st => st.session

def writeSide : StorageSide → DOMStores → List (List Char × List Char) → DOMStores
  | .loc, st, l => { st with durable := l }
  | .sess, st, l => { st with session := l }

/-- Association-list assignment: overwrite an existing key in place,
otherwise append.  Models both `Storage.setItem` and JavaScript object
property assignment. -/
def assocSet (l : List (List Char × List Char)) (k v : List Char) :
    List (List Char × List Char) :=
  if l.any (fun p => p.1 = k) then l.map (fun p => if p.1 = k then (k, v) else p)
  else l ++ [(k, v)]

/-- `Storage.getItem`: the stored string, or `null` (here `none`). -/
def assocGet (l : List (List Char × List Char)) (k : List Char) :
    Option (List Char) :=
  (l.find? (fun p => p.1 = k)).map (fun p => p.2)

/-- `storage.setItem(type, key, value)` of the wrapper.  The whole body is
inside `try \x7b ... \x7d catch`, so every storage fault — the invalid-kind
`Error` thrown by `getStorage` included — is caught, logged, and leaves
the stores unchanged. -/
def setItem (ty key : List Char) (value : JSVal) (st : DOMStores) :
    Except (List Char) DOMStores :=
  match getStorage ty with
  | .error _ => .ok st
  | .ok side =>
      let prefixedKey := STORAGE_PREFIX ++ key
      let stringValue := match value with
        | .vstr s => s
        | v => jsonStringify v
      .ok (writeSide side st (assocSet (readSide side st) prefixedKey stringValue))

/-- `storage.getItem(type, key)` of the wrapper: `null` when the key is
absent, the `JSON.parse` of the stored string when it parses, the raw
string otherwise; every caught fault degrades to `null`. -/
def getItem (ty key : List Char) (st : DOMStores) : Except (List Char) JSVal :=
  match getStorage ty with
  | .error _ => .ok .vnull
  | .ok side =>
      match assocGet (readSide side st) (STORAGE_PREFIX ++ key) with
      | none => .ok .vnull
      | some stringValue =>
          match jsonParse stringValue with
          | some v => .ok v
          | none => .ok (.vstr stringValue)

/-- `storage.removeItem(type, key)` of the wrapper. -/
def removeItem (ty ky : List Char) (st : DOMStores) :
    Except (List Char) DOMStores :=
  match getStorage ty with
  | .error _ => .ok st
  | .ok side =>
      .ok (writeSide side st
        ((readSide side st).filter (fun p => ¬p.1 = STORAGE_PREFIX ++ ky)))

/-- `storage.clear(type)` of the wrapper. -/
def clear (ty : List Char) (st : DOMStores) : Except (List Char) DOMStores :=
  match getStorage ty with
  | .error _ => .ok st
  | .ok side => .ok (writeSide side st [])

/-- `storage.key(type, index)` of the wrapper: the key at `index` with the
prefix stripped when present, `null` when out of range or on a caught
fault. -/
def key (ty : List Char) (index : Nat) (st : DOMStores) :
    Except (List Char) JSVal :=
  match getStorage ty with
  | .error _ => .ok .vnull
  | .ok side =>
      match (readSide side st).get? index with
      | none => .ok .vnull
      | some p =>
          if STORAGE_PREFIX.isPrefixOf p.1 then
            .ok (.vstr (p.1.drop STORAGE_PREFIX.length))
          else .ok (.vstr p.1)

/-- `storage.length(type)` of the wrapper: the item count, `-1` on a
caught fault. -/
def length (ty : List Char) (st : DOMStores) : Except (List Char) Int :=
  match getStorage ty with
  | .error _ => .ok (-1)
  | .ok side => .ok ((readSide side st).length : Int)

/-! ## The request pipeline (`axiosAPIWrapper.js`) -/

/-- The defaults passed to `axios.create`. -/
def defaultHeaders : List (List Char × List Char) :=
  [(str "Content-Type", str "application/json"),
   (str "Accept", str "application/json")]

/-- The configuration of the axios instance built at module load. -/
structure PipelineConfig where
  baseURL : List Char
  timeout : Nat
  headers : List (List Char × List Char)
deriving DecidableEq, Repr

/-- Module initialisation of `axiosAPIWrapper.js`: read
`process.env.BASE_URL`; a missing (or empty, hence falsy) value throws
`"BASE_URL environment variable is not set!"` before the axios instance
is created, so loading the module fails. -/
def initPipeline (env : List Char → Option (List Char)) :
    Except (List Char) PipelineConfig :=
  match env (str "BASE_URL") with
  | none => .error (str "BASE_URL environment variable is not set!")
  | some url =>
      if url = [] then .error (str "BASE_URL environment variable is not set!")
      else .ok { baseURL := url, timeout := 10000, headers := defaultHeaders }

/-- Header lookup in a request configuration. -/
def headerValue (hs : List (List Char × List Char)) (k : List Char) :
    Option (List Char) :=
  (hs.find? (fun p => p.1 = k)).map (fun p => p.2)

/-- The request interceptor of the pipeline: read
`storage.getItem('local', 'auth')` and, iff the token is truthy, assign
`config.headers.Authorization =` ``Bearer $\x7bauthToken\x7d``. -/
def requestInterceptor (st : DOMStores) (headers : List (List Char × List Char)) :
    List (List Char × List Char) :=
  match getItem (str "local") (str "auth") st with
  | .error _ => headers
  | .ok authToken =>
      if authToken.truthy then
        assocSet headers (str "Authorization") (str "Bearer " ++ authToken.toStr)
      else headers

/-! ## Generic helper lemmas -/

theorem getLastD_congr {l : List Char} (h : l ≠ []) (d₁ d₂ : Char) :
    l.getLastD d₁ = l.getLastD d₂ := by
  rw [List.getLastD_eq_getLast?, List.getLastD_eq_getLast?]
  cases hl : l.getLast? with
  | none => exact absurd (List.getLast?_eq_none_iff.1 hl) h
  | some x => rfl

theorem censorWord_length (s : List Char) : (censorWord s).length = s.length := by
  match s with
  | [] => rfl
  | [a] => rfl
  | [a, b] => rfl
  | a :: b :: c :: t => simp [censorWord]

theorem censorWordJS_of_not_string (v : JSVal) (h : ∀ t, v ≠ JSVal.vstr t) :
    censorWordJS v = [] := by
  cases v with
  | vstr t => exact absurd rfl (h t)
  | vnull => rfl
  | vbool b => rfl
  | vnum n => rfl

/-- C1 : `censorWord` satisfies the spec's policy table for every string
input: length 0 gives the empty string, length 1 a single `'*'`, length 2
the first character and one `'*'`, length ≥ 3 the first character,
`len - 2` mask characters and the last character; the output always has
the length of the input; for length ≥ 3 the first and last characters are
preserved and every interior character is `'*'`; non-string input gives
the empty string. -/
theorem censorWord_spec (s : List Char) :
    (s.length = 0 → censorWord s = []) ∧
    (s.length = 1 → censorWord s = ['*']) ∧
    (s.length = 2 → censorWord s = [s.headD '*', '*']) ∧
    (3 ≤ s.length →
      censorWord s
        = s.headD '*' :: (List.replicate (s.length - 2) '*' ++ [s.getLastD '*'])) ∧
    (censorWord s).length = s.length ∧
    (3 ≤ s.length →
      (censorWord s).headD '?' = s.headD '?' ∧
      (censorWord s).getLastD '?' = s.getLastD '?' ∧
      ∀ c ∈ ((censorWord s).drop 1).dropLast, c = '*') ∧
    (∀ v : JSVal, (∀ t, v ≠ JSVal.vstr t) → censorWordJS v = []) := by
  match s with
  | [] =>
      refine ⟨fun _ => rfl, ?_, ?_, ?_, censorWord_length _, ?_,
        censorWordJS_of_not_string⟩ <;> intro h <;> simp at h
  | [a] =>
      refine ⟨?_, fun _ => rfl, ?_, ?_, censorWord_length _, ?_,
        censorWordJS_of_not_string⟩ <;> intro h <;> simp at h
  | [a, b] =>
      refine ⟨?_, ?_, fun _ => rfl, ?_, censorWord_length _, ?_,
        censorWordJS_of_not_string⟩ <;> intro h <;> simp at h
  | a :: b :: c :: t =>
      have hne : (b :: c :: t : List Char) ≠ [] := by simp
      have hlen : (b :: c :: t : List Char).length - 1 = (a :: b :: c :: t).length - 2 := by
        simp
      have hlast : (a :: b :: c :: t).getLastD '*' = (b :: c :: t).getLastD '*' := by
        rw [List.getLastD_cons]
        exact getLastD_congr hne a '*'
      have hcw : censorWord (a :: b :: c :: t)
          = a :: (List.replicate ((a :: b :: c :: t).length - 2) '*'
              ++ [(a :: b :: c :: t).getLastD '*']) := by
        rw [censorWord, hlast, hlen]
      refine ⟨?_, ?_, ?_, fun _ => by rw [hcw]; rfl, censorWord_length _,
        fun _ => ⟨?_, ?_, ?_⟩, censorWordJS_of_not_string⟩
      · intro h; simp at h
      · intro h; simp at h
      · intro h; simp at h
      · rw [hcw]; rfl
      · rw [hcw, List.getLastD_cons, List.getLastD_concat, List.getLastD_cons]
        exact (getLastD_congr hne '*' a).symm ▸ (getLastD_congr hne a '*').symm
      · rw [hcw]
        intro x hx
        simp only [List.drop_succ_cons, List.drop_zero, List.dropLast_concat] at hx
        exact List.eq_of_mem_replicate hx

/-- C2 : evaluation of `censorPhone` at the claim's inputs.  On
`"+1234567890"` the greedy `^\+\d+` country-code match absorbs every
digit, so the function returns the phone number entirely uncensored —
contradicting the claim (and the source's own doc example)
`"+1********0"`.  The numeric input `9876543210` is coerced to
`"9876543210"` and censored to `"9********0"` as claimed. -/
theorem censorPhone_eval :
    censorPhone (.vstr (str "+1234567890")) = str "+1234567890" ∧
    censorPhone (.vstr (str "+1234567890")) ≠ str "+1********0" ∧
    censorPhone (.vnum 9876543210) = str "9********0" :=
  ⟨by decide, by decide, by decide⟩

/-! ## Lemmas about `jsSplit` and `jsJoin` -/

theorem jsSplit_ne_nil (sep : Char) (l : List Char) : jsSplit sep l ≠ [] := by
  cases l with
  | nil => simp [jsSplit]
  | cons c rest =>
      rw [jsSplit]
      split
      · simp
      · cases h : jsSplit sep rest <;> simp

theorem jsSplit_of_not_mem {sep : Char} {l : List Char} (h : sep ∉ l) :
    jsSplit sep l = [l] := by
  induction l with
  | nil => rfl
  | cons c rest ih =>
      have hc : ¬c = sep := fun e => h (e ▸ List.mem_cons_self c rest)
      have hr : sep ∉ rest := fun m => h (List.mem_cons_of_mem c m)
      rw [jsSplit, if_neg hc, ih hr]

theorem jsSplit_append {sep : Char} {l₁ : List Char} (l₂ : List Char)
    (h : sep ∉ l₁) : jsSplit sep (l₁ ++ sep :: l₂) = l₁ :: jsSplit sep l₂ := by
  induction l₁ with
  | nil => simp [jsSplit]
  | cons c r ih =>
      have hc : ¬c = sep := fun e => h (e ▸ List.mem_cons_self c r)
      have hr : sep ∉ r := fun m => h (List.mem_cons_of_mem c m)
      rw [List.cons_append, jsSplit, if_neg hc, ih hr]

theorem jsJoin_jsSplit (sep : Char) (l : List Char) :
    jsJoin [sep] (jsSplit sep l) = l := by
  induction l with
  | nil => rfl
  | cons c rest ih =>
      rw [jsSplit]
      by_cases hc : c = sep
      · rw [if_pos hc]
        obtain ⟨p, ps, hps⟩ := List.exists_cons_of_ne_nil (jsSplit_ne_nil sep rest)
        rw [hps, jsJoin]
        rw [hps] at ih
        simp [jsJoin] at ih ⊢
        simp [ih, hc]
      · rw [if_neg hc]
        obtain ⟨p, ps, hps⟩ := List.exists_cons_of_ne_nil (jsSplit_ne_nil sep rest)
        rw [hps]
        rw [hps] at ih
        cases ps with
        | nil => simpa [jsJoin] using congrArg (c :: ·) ih
        | cons q ps' =>
            rw [jsJoin] at ih ⊢
            simpa [List.append_assoc] using congrArg (c :: ·) ih

theorem censorDomain_length_le (d : List Char) :
    (censorDomain d).length ≤ d.length := by
  have hd := jsJoin_jsSplit '.' d
  obtain ⟨p, ps, hps⟩ := List.exists_cons_of_ne_nil (jsSplit_ne_nil '.' d)
  rw [censorDomain]
  have hdot : str "." = ['.'] := rfl
  rw [hps, hdot]
  rw [hps] at hd
  cases ps with
  | nil =>
      simp only [List.headD_cons, List.drop_succ_cons, List.drop_zero, jsJoin]
      rw [jsJoin] at hd
      simp [censorWord_length, ← hd]
  | cons q ps' =>
      simp only [List.headD_cons, List.drop_succ_cons, List.drop_zero]
      rw [jsJoin] at hd
      by_cases hq : jsJoin ['.'] (q :: ps') = []
      · rw [if_pos hq]
        simp [censorWord_length, ← hd]
      · rw [if_neg hq]
        simp only [← hd, List.length_append, List.length_cons, censorWord_length]
        omega

/-- Witness for C1 at the concrete input `"hello"` (length 5 ≥ 3). -/
theorem censorWord_spec_witness :
    censorWord (str "hello")
      = (str "hello").headD '*'
        :: (List.replicate ((str "hello").length - 2) '*'
            ++ [(str "hello").getLastD '*']) :=
  (censorWord_spec (str "hello")).2.2.2.1 (by decide)

/-! ## Character-level lemmas for `slugify` -/

theorem toNat_ofNat_of_valid {n : Nat} (h : n.isValidChar) :
    (Char.ofNat n).toNat = n := by
  unfold Char.ofNat
  rw [dif_pos h]
  rfl

theorem toLower_toLower (c : Char) : c.toLower.toLower = c.toLower := by
  unfold Char.toLower
  by_cases h : c.toNat ≥ 65 ∧ c.toNat ≤ 90
  · rw [if_pos h]
    have hv : (c.toNat + 32).isValidChar := Or.inl (by omega)
    have ht := toNat_ofNat_of_valid hv
    rw [if_neg]
    rw [ht]
    omega
  · rw [if_neg h, if_neg h]

theorem not_whitespace_of_keepChar {c : Char} (h : keepChar c = true) :
    c.isWhitespace = false := by
  rw [Char.isWhitespace]
  simp only [Bool.or_eq_false_iff, decide_eq_false_iff_not]
  refine ⟨⟨⟨?_, ?_⟩, ?_⟩, ?_⟩ <;> rintro rfl <;> exact absurd h (by decide)

/-! ## Provenance of the characters of `slugify` -/

theorem mem_wsToDash {c : Char} :
    ∀ (b : Bool) (l : List Char), c ∈ wsToDash b l → c ∈ l ∨ c = '-' := by
  intro b l
  induction l generalizing b with
  | nil => intro h; simp [wsToDash] at h
  | cons d t ih =>
      intro h
      rw [wsToDash] at h
      by_cases hd : d.isWhitespace
      · rw [if_pos hd] at h
        rcases List.mem_append.1 h with h | h
        · cases b with
          | true => simp at h
          | false => right; simpa using h
        · rcases ih true h with h | h
          · exact Or.inl (List.mem_cons_of_mem _ h)
          · exact Or.inr h
      · rw [if_neg hd] at h
        rcases List.mem_cons.1 h with h | h
        · exact Or.inl (h ▸ List.mem_cons_self _ _)
        · rcases ih false h with h | h
          · exact Or.inl (List.mem_cons_of_mem _ h)
          · exact Or.inr h

theorem mem_collapseDashes {c : Char} :
    ∀ (b : Bool) (l : List Char), c ∈ collapseDashes b l → c ∈ l := by
  intro b l
  induction l generalizing b with
  | nil => intro h; simp [collapseDashes] at h
  | cons d t ih =>
      intro h
      rw [collapseDashes] at h
      by_cases hd : d = '-'
      · rw [if_pos hd] at h
        rcases List.mem_append.1 h with h | h
        · cases b with
          | true => simp at h
          | false => simp at h; exact h ▸ hd ▸ List.mem_cons_self _ _
        · exact List.mem_cons_of_mem _ (ih true h)
      · rw [if_neg hd] at h
        rcases List.mem_cons.1 h with h | h
        · exact h ▸ List.mem_cons_self _ _
        · exact List.mem_cons_of_mem _ (ih false h)

theorem mem_jsTrim {c : Char} {l : List Char} (h : c ∈ jsTrim l) : c ∈ l := by
  rw [jsTrim] at h
  have h1 := List.mem_reverse.1 h
  have h2 := (List.dropWhile_sublist _).subset h1
  have h3 := List.mem_reverse.1 h2
  exact (List.dropWhile_sublist _).subset h3

/-! ## Second-pass identity lemmas -/

theorem map_toLower_fixed {l : List Char} (h : ∀ c ∈ l, c.toLower = c) :
    l.map Char.toLower = l := by
  induction l with
  | nil => rfl
  | cons c t ih =>
      rw [List.map_cons, h c (List.mem_cons_self c t),
        ih (fun d hd => h d (List.mem_cons_of_mem c hd))]

theorem dropWhile_eq_self_of {p : Char → Bool} {l : List Char}
    (h : ∀ c ∈ l, p c = false) : l.dropWhile p = l := by
  cases l with
  | nil => rfl
  | cons c t => rw [List.dropWhile_cons, h c (List.mem_cons_self c t)]; simp

theorem jsTrim_eq_self {l : List Char} (h : ∀ c ∈ l, c.isWhitespace = false) :
    jsTrim l = l := by
  rw [jsTrim, dropWhile_eq_self_of h,
    dropWhile_eq_self_of (fun c hc => h c (List.mem_reverse.1 hc)),
    List.reverse_reverse]

theorem wsToDash_eq_self {l : List Char} (h : ∀ c ∈ l, c.isWhitespace = false) :
    ∀ b, wsToDash b l = l := by
  induction l with
  | nil => intro b; rfl
  | cons c t ih =>
      intro b
      rw [wsToDash, if_neg (by simp [h c (List.mem_cons_self c t)]),
        ih (fun d hd => h d (List.mem_cons_of_mem c hd)) false]

theorem collapseDashes_true_head (l : List Char) :
    (collapseDashes true l).head? ≠ some '-' := by
  induction l with
  | nil => simp [collapseDashes]
  | cons c t ih =>
      rw [collapseDashes]
      by_cases hc : c = '-'
      · rw [if_pos hc]; simpa using ih
      · rw [if_neg hc]; simpa using hc

theorem noDDash_cons_of_ne {c : Char} {t : List Char} (hc : c ≠ '-')
    (ht : noDDash t = true) : noDDash (c :: t) = true := by
  cases t with
  | nil => rfl
  | cons d t' => rw [noDDash]; simp [hc, ht]

theorem noDDash_dash_cons {t : List Char} (h : t.head? ≠ some '-')
    (ht : noDDash t = true) : noDDash ('-' :: t) = true := by
  cases t with
  | nil => rfl
  | cons d t' =>
      have hd : d ≠ '-' := fun e => h (by simp [e])
      rw [noDDash]; simp [hd, ht]

theorem noDDash_collapseDashes (l : List Char) :
    ∀ b, noDDash (collapseDashes b l) = true := by
  induction l with
  | nil => intro b; rfl
  | cons c t ih =>
      intro b
      rw [collapseDashes]
      by_cases hc : c = '-'
      · rw [if_pos hc]
        cases b with
        | true => simpa using ih true
        | false =>
            simp only [Bool.false_eq_true, if_false, List.singleton_append]
            exact noDDash_dash_cons (collapseDashes_true_head t) (ih true)
      · rw [if_neg hc]
        exact noDDash_cons_of_ne hc (ih false)

theorem noDDash_of_cons {c : Char} {t : List Char}
    (h : noDDash (c :: t) = true) : noDDash t = true := by
  cases t with
  | nil => rfl
  | cons d t' =>
      rw [noDDash] at h
      simp only [Bool.and_eq_true] at h
      exact h.2

theorem collapseDashes_eq_self :
    ∀ (l : List Char) (b : Bool), noDDash l = true →
      (b = true → l.head? ≠ some '-') → collapseDashes b l = l := by
  intro l
  induction l with
  | nil => intro b _ _; rfl
  | cons c t ih =>
      intro b hnd hb
      rw [collapseDashes]
      by_cases hc : c = '-'
      · have hbf : b = false := by
          cases b with
          | false => rfl
          | true => exact absurd (by simp [hc]) (hb rfl)
        subst hbf
        rw [if_pos hc]
        have hth : t.head? ≠ some '-' := by
          cases t with
          | nil => simp
          | cons d t' =>
              intro he
              simp only [List.head?_cons, Option.some.injEq] at he
              rw [hc, he, noDDash] at hnd
              simp at hnd
        rw [ih true (noDDash_of_cons hnd) (fun _ => hth), hc]
        rfl
      · rw [if_neg hc]
        rw [ih false (noDDash_of_cons hnd) (by simp)]

theorem slugify_chars {x : List Char} {c : Char} (h : c ∈ slugify x) :
    keepChar c = true ∧ c.isWhitespace = false ∧ c.toLower = c := by
  have h1 : c ∈ List.filter keepChar (wsToDash false (jsTrim (x.map Char.toLower))) :=
    mem_collapseDashes false _ h
  have hk : keepChar c = true := List.of_mem_filter h1
  have h2 : c ∈ wsToDash false (jsTrim (x.map Char.toLower)) :=
    List.mem_of_mem_filter h1
  refine ⟨hk, not_whitespace_of_keepChar hk, ?_⟩
  rcases mem_wsToDash false _ h2 with h3 | rfl
  · obtain ⟨d, _, rfl⟩ := List.mem_map.1 (mem_jsTrim h3)
    exact toLower_toLower d
  · decide

/-- C7 : `slugify` is idempotent — for every string `x`,
`slugify (slugify x) = slugify x`. -/
theorem slugify_idempotent (x : List Char) : slugify (slugify x) = slugify x := by
  have hchars : ∀ c ∈ slugify x,
      keepChar c = true ∧ c.isWhitespace = false ∧ c.toLower = c :=
    fun c hc => slugify_chars hc
  have hnd : noDDash (slugify x) = true := by
    rw [slugify]
    exact noDDash_collapseDashes _ false
  conv_lhs => rw [slugify]
  rw [map_toLower_fixed (fun c hc => (hchars c hc).2.2),
    jsTrim_eq_self (fun c hc => (hchars c hc).2.1),
    wsToDash_eq_self (fun c hc => (hchars c hc).2.1) false,
    List.filter_eq_self.2 (fun c hc => (hchars c hc).1),
    collapseDashes_eq_self _ false hnd (by simp)]

/-! ## `censorEmail` -/

/-- C3 counterexample: both concrete examples asserted by the claim fail
on the code.  The domain label `"example"` has 7 characters, so it
censors to `"e*****e"` (five masks), not `"e******e"`; and
`censorEmail("a@b.com")` censors the single-character parts to
`"*@*.com"` instead of returning the input unchanged. -/
theorem censorEmail_claim_cex :
    censorEmail (.vstr (str "john.doe@example.com"))
        ≠ .vstr (str "j******e@e******e.com") ∧
    censorEmail (.vstr (str "a@b.com")) ≠ .vstr (str "a@b.com") :=
  ⟨by decide, by decide⟩

/-- C3 (amended) : `censorEmail` censors the local part and the first
dot-delimited domain label independently via `censorWord` and preserves
the remaining domain suffix verbatim including its separating dot;
`censorEmail("john.doe@example.com") = "j******e@e*****e.com"`,
`censorEmail("a@b.com") = "*@*.com"`, and every string not containing
`'@'` is returned unchanged. -/
theorem censorEmail_spec (locl nm tld : List Char) :
    censorEmail (.vstr (str "john.doe@example.com"))
        = .vstr (str "j******e@e*****e.com") ∧
    censorEmail (.vstr (str "a@b.com")) = .vstr (str "*@*.com") ∧
    ('@' ∉ locl → '@' ∉ nm → '.' ∉ nm → '@' ∉ tld → tld ≠ [] →
      censorEmail (.vstr (locl ++ '@' :: (nm ++ '.' :: tld)))
        = .vstr (censorWord locl ++ '@' :: (censorWord nm ++ '.' :: tld))) ∧
    (∀ s : List Char, '@' ∉ s → censorEmail (.vstr s) = .vstr s) := by
  refine ⟨by decide, by decide, ?_, ?_⟩
  · intro h1 h2 h3 h4 h5
    have hdom : ('@' : Char) ∉ nm ++ '.' :: tld := by
      intro hm
      rcases List.mem_append.1 hm with hm | hm
      · exact h2 hm
      · rcases List.mem_cons.1 hm with hm | hm
        · exact absurd hm (by decide)
        · exact h4 hm
    have hmem : ('@' : Char) ∈ locl ++ '@' :: (nm ++ '.' :: tld) := by simp
    have hdotstr : str "." = ['.'] := rfl
    simp only [censorEmail, if_pos hmem]
    rw [jsSplit_append _ h1, jsSplit_of_not_mem hdom]
    simp only [List.headD_cons, List.drop_succ_cons, List.drop_zero]
    rw [censorDomain]
    simp only [hdotstr]
    rw [jsSplit_append _ h3]
    simp only [List.headD_cons, List.drop_succ_cons, List.drop_zero]
    rw [jsJoin_jsSplit, if_neg h5]
  · intro s hs
    simp only [censorEmail, if_neg hs]

/-- Witness for C3 at `"john@mail.com"`. -/
theorem censorEmail_spec_witness :
    censorEmail (.vstr (str "john" ++ '@' :: (str "mail" ++ '.' :: str "com")))
      = .vstr (censorWord (str "john")
          ++ '@' :: (censorWord (str "mail") ++ '.' :: str "com")) :=
  (censorEmail_spec (str "john") (str "mail") (str "com")).2.2.1
    (by decide) (by decide) (by decide) (by decide) (by decide)

/-- C9 : on a string with two or more `'@'` characters, `censorEmail`
silently drops the second `'@'` and everything after it: the result is
the censored part before the first `'@'`, one `'@'`, and the
censored-plus-preserved text between the first and second `'@'`; in
particular the input is not returned unchanged. -/
theorem censorEmail_extra_at (locl mid rest : List Char)
    (h1 : '@' ∉ locl) (h2 : '@' ∉ mid) :
    censorEmail (.vstr (locl ++ '@' :: (mid ++ '@' :: rest)))
        = .vstr (censorWord locl ++ '@' :: censorDomain mid) ∧
    censorEmail (.vstr (locl ++ '@' :: (mid ++ '@' :: rest)))
        ≠ .vstr (locl ++ '@' :: (mid ++ '@' :: rest)) := by
  have hmem : ('@' : Char) ∈ locl ++ '@' :: (mid ++ '@' :: rest) := by simp
  have heq : censorEmail (.vstr (locl ++ '@' :: (mid ++ '@' :: rest)))
      = .vstr (censorWord locl ++ '@' :: censorDomain mid) := by
    simp only [censorEmail, if_pos hmem]
    rw [jsSplit_append _ h1, jsSplit_append _ h2]
    simp only [List.headD_cons, List.drop_succ_cons, List.drop_zero]
  refine ⟨heq, ?_⟩
  rw [heq]
  intro hc
  injection hc with hc'
  have hlen := congrArg List.length hc'
  simp only [List.length_append, List.length_cons, censorWord_length] at hlen
  have hle := censorDomain_length_le mid
  omega

/-- Witness for C9 at `"a@b@c.com"`. -/
theorem censorEmail_extra_at_witness :
    censorEmail (.vstr (str "a" ++ '@' :: (str "b" ++ '@' :: str "c.com")))
        = .vstr (censorWord (str "a") ++ '@' :: censorDomain (str "b")) ∧
    censorEmail (.vstr (str "a" ++ '@' :: (str "b" ++ '@' :: str "c.com")))
        ≠ .vstr (str "a" ++ '@' :: (str "b" ++ '@' :: str "c.com")) :=
  censorEmail_extra_at (str "a") (str "b") (str "c.com") (by decide) (by decide)

/-! ## `camelToSnake` / `snakeToCamel` -/

/-- C8 : `camelToSnake` and `snakeToCamel` are not inverses in general —
on `"a_b"` (which already contains an underscore) the round trip gives
`"aB"`, not the input back. -/
theorem snakeToCamel_camelToSnake_not_inverse :
    ∃ x : List Char, snakeToCamel (camelToSnake x) ≠ x :=
  ⟨str "a_b", by decide⟩

/-! ## `safeParseJSON` / `isValidJSON` -/

/-- C10 : a `null` result from `safeParseJSON` does not imply invalid
JSON: the string `"null"` is valid JSON (accepted by `isValidJSON`) yet
`safeParseJSON` returns JavaScript `null` for it — the very same result
it returns for the unparseable input `"\x7b"` — so callers cannot tell a
parsed JSON `null` from a parse failure. -/
theorem safeParseJSON_null_ambiguous :
    safeParseJSON (str "null") = .vnull ∧
    isValidJSON (str "null") = true ∧
    safeParseJSON (str "\x7b") = .vnull ∧
    isValidJSON (str "\x7b") = false ∧
    safeParseJSON (str "null") = safeParseJSON (str "\x7b") :=
  ⟨by decide, by decide, by decide, by decide, by decide⟩

/-! ## Pipeline initialisation -/

/-- C6 : if `BASE_URL` is absent from the environment, loading the
pipeline module throws the configuration error instead of building an
axios instance with an empty or default base URL; with a nonempty value
it initialises with exactly that base URL. -/
theorem initPipeline_requires_base_url (env : List Char → Option (List Char)) :
    (env (str "BASE_URL") = none →
      initPipeline env
        = .error (str "BASE_URL environment variable is not set!")) ∧
    (∀ url, env (str "BASE_URL") = some url → url ≠ [] →
      initPipeline env = .ok ⟨url, 10000, defaultHeaders⟩) := by
  constructor
  · intro h
    simp only [initPipeline, h]
  · intro url h hne
    simp only [initPipeline, h]
    rw [if_neg hne]

/-- Witness for C6: an empty environment fails, a configured one succeeds. -/
theorem initPipeline_requires_base_url_witness :
    initPipeline (fun _ => none)
        = .error (str "BASE_URL environment variable is not set!") ∧
    initPipeline (fun _ => some (str "https://api.example.com"))
        = .ok ⟨str "https://api.example.com", 10000, defaultHeaders⟩ :=
  ⟨(initPipeline_requires_base_url (fun _ => none)).1 rfl,
   (initPipeline_requires_base_url (fun _ => some (str "https://api.example.com"))).2
      _ rfl (by decide)⟩

/-! ## Storage wrapper fault handling -/

/-- C5 counterexample: with the invalid storage kind `"bogus"` every
wrapper operation returns its caught-and-logged neutral default
(`Except.ok` of `null` / unchanged stores / `-1`) — none of them
propagates the `getStorage` error to the caller. -/
theorem storage_invalid_kind_cex :
    getItem (str "bogus") (str "k") ⟨[], []⟩ = .ok .vnull ∧
    setItem (str "bogus") (str "k") (.vstr (str "v")) ⟨[], []⟩ = .ok ⟨[], []⟩ ∧
    removeItem (str "bogus") (str "k") ⟨[], []⟩ = .ok ⟨[], []⟩ ∧
    clear (str "bogus") ⟨[], []⟩ = .ok ⟨[], []⟩ ∧
    key (str "bogus") 0 ⟨[], []⟩ = .ok .vnull ∧
    length (str "bogus") ⟨[], []⟩ = .ok (-1) :=
  ⟨rfl, rfl, rfl, rfl, rfl, rfl⟩

/-- C5 (amended) : an invalid storage-kind argument makes `getStorage`
itself throw, but every wrapper operation runs `getStorage` inside its
`try`/`catch`, so the error is caught like any other storage fault and
the operation returns its neutral default (`null` / no-op / `-1`)
instead of propagating the error. -/
theorem storage_invalid_kind (ty k : List Char) (v : JSVal) (idx : Nat)
    (st : DOMStores) (h1 : ty ≠ str "local") (h2 : ty ≠ str "session") :
    getStorage ty = .error (str "Invalid storage type provided: " ++ ty
        ++ str ". Use 'local' or 'session'.") ∧
    setItem ty k v st = .ok st ∧
    getItem ty k st = .ok .vnull ∧
    removeItem ty k st = .ok st ∧
    clear ty st = .ok st ∧
    key ty idx st = .ok .vnull ∧
    length ty st = .ok (-1) := by
  have hg : getStorage ty
      = .error (str "Invalid storage type provided: " ++ ty
          ++ str ". Use 'local' or 'session'.") := by
    rw [getStorage, if_neg h1, if_neg h2]
  refine ⟨hg, ?_, ?_, ?_, ?_, ?_, ?_⟩
  · simp only [setItem, hg]
  · simp only [getItem, hg]
  · simp only [removeItem, hg]
  · simp only [clear, hg]
  · simp only [key, hg]
  · simp only [length, hg]

/-- Witness for C5 at the concrete invalid kind `"bogus"`. -/
theorem storage_invalid_kind_witness :
    getStorage (str "bogus")
        = .error (str "Invalid storage type provided: " ++ str "bogus"
            ++ str ". Use 'local' or 'session'.") ∧
    setItem (str "bogus") (str "kk") .vnull ⟨[], []⟩ = .ok ⟨[], []⟩ ∧
    getItem (str "bogus") (str "kk") ⟨[], []⟩ = .ok .vnull ∧
    removeItem (str "bogus") (str "kk") ⟨[], []⟩ = .ok ⟨[], []⟩ ∧
    clear (str "bogus") ⟨[], []⟩ = .ok ⟨[], []⟩ ∧
    key (str "bogus") 3 ⟨[], []⟩ = .ok .vnull ∧
    length (str "bogus") ⟨[], []⟩ = .ok (-1) :=
  storage_invalid_kind (str "bogus") (str "kk") .vnull 3 ⟨[], []⟩
    (by decide) (by decide)

/-! ## Request interceptor -/

theorem headerValue_assocSet (hs : List (List Char × List Char))
    (k v : List Char) : headerValue (assocSet hs k v) k = some v := by
  induction hs with
  | nil => simp [assocSet, headerValue]
  | cons p t ih =>
      by_cases hp : p.1 = k
      · have hany : (p :: t).any (fun q => q.1 = k) = true := by
          simp [List.any_cons, hp]
        simp [assocSet, hany, headerValue, hp]
      · by_cases ht : t.any (fun q => q.1 = k) = true
        · have hany : (p :: t).any (fun q => q.1 = k) = true := by
            simp [List.any_cons, ht]
          simp only [assocSet, hany, if_true, List.map_cons, if_neg hp]
          simp only [assocSet, ht, if_true] at ih
          simp only [headerValue] at ih ⊢
          rw [List.find?_cons_of_neg _ (by simpa using hp)]
          exact ih
        · have hany : (p :: t).any (fun q => q.1 = k) = false := by
            rw [List.any_cons, Bool.or_eq_false_iff]
            exact ⟨by simpa using hp, Bool.eq_false_iff.2 ht⟩
          simp only [assocSet, hany, Bool.false_eq_true, if_false,
            List.cons_append]
          simp only [assocSet, ht, Bool.false_eq_true, if_false] at ih
          simp only [headerValue] at ih ⊢
          rw [List.find?_cons_of_neg _ (by simpa using hp)]
          exact ih

theorem getItem_local_auth (st : DOMStores) :
    getItem (str "local") (str "auth") st
      = .ok (match assocGet st.durable (STORAGE_PREFIX ++ str "auth") with
          | none => .vnull
          | some sv => match jsonParse sv with
              | some v => v
              | none => .vstr sv) := by
  show (match assocGet st.durable (STORAGE_PREFIX ++ str "auth") with
      | none => Except.ok JSVal.vnull
      | some sv => match jsonParse sv with
          | some v => Except.ok v
          | none => Except.ok (JSVal.vstr sv)) = _
  cases assocGet st.durable (STORAGE_PREFIX ++ str "auth") with
  | none => rfl
  | some sv =>
      show (match jsonParse sv with
          | some v => Except.ok v
          | none => Except.ok (JSVal.vstr sv))
        = Except.ok (match jsonParse sv with
          | some v => v
          | none => JSVal.vstr sv)
      cases jsonParse sv <;> rfl

/-- C4 : if the durable store holds an opaque (non-JSON, nonempty)
credential string under the prefixed key `auth`, the request interceptor
sets the `Authorization` header to `"Bearer "` followed by that
credential; if nothing is stored under `auth`, the outgoing
configuration carries no `Authorization` header at all. -/
theorem requestInterceptor_auth (st : DOMStores)
    (hs : List (List Char × List Char)) (tok : List Char) :
    (assocGet st.durable (STORAGE_PREFIX ++ str "auth") = some tok →
      jsonParse tok = none → tok ≠ [] →
      headerValue (requestInterceptor st hs) (str "Authorization")
        = some (str "Bearer " ++ tok)) ∧
    (assocGet st.durable (STORAGE_PREFIX ++ str "auth") = none →
      headerValue hs (str "Authorization") = none →
      headerValue (requestInterceptor st hs) (str "Authorization") = none) := by
  constructor
  · intro hget hjson hne
    have hitem : getItem (str "local") (str "auth") st = .ok (.vstr tok) := by
      rw [getItem_local_auth, hget]
      show Except.ok (match jsonParse tok with
          | some v => v
          | none => JSVal.vstr tok) = _
      rw [hjson]
    rw [requestInterceptor, hitem]
    have htr : (JSVal.vstr tok).truthy = true := by
      simp [JSVal.truthy, hne]
    show headerValue
        (if (JSVal.vstr tok).truthy = true then
          assocSet hs (str "Authorization")
            (str "Bearer " ++ (JSVal.vstr tok).toStr)
        else hs) (str "Authorization") = _
    rw [if_pos htr]
    exact headerValue_assocSet hs _ _
  · intro hget habs
    have hitem : getItem (str "local") (str "auth") st = .ok .vnull := by
      rw [getItem_local_auth, hget]
    rw [requestInterceptor, hitem]
    show headerValue
        (if JSVal.vnull.truthy = true then
          assocSet hs (str "Authorization")
            (str "Bearer " ++ JSVal.vnull.toStr)
        else hs) (str "Authorization") = _
    rw [if_neg (by decide)]
    exact habs

/-- Witness for C4: a store holding the token `"tok-123"` yields
`Authorization: Bearer tok-123` on top of the default headers; the empty
store leaves the default headers without any `Authorization` entry. -/
theorem requestInterceptor_auth_witness :
    headerValue
        (requestInterceptor ⟨[(str "my_app_auth", str "tok-123")], []⟩
          defaultHeaders)
        (str "Authorization") = some (str "Bearer " ++ str "tok-123") ∧
    headerValue (requestInterceptor ⟨[], []⟩ defaultHeaders)
        (str "Authorization") = none :=
  ⟨(requestInterceptor_auth ⟨[(str "my_app_auth", str "tok-123")], []⟩
        defaultHeaders (str "tok-123")).1 (by decide) (by decide) (by decide),
   (requestInterceptor_auth ⟨[], []⟩ defaultHeaders (str "tok-123")).2
      (by decide) (by decide)⟩
